import Mathlib

/-!
Shallow embedding of the 2D particle physics simulator (src/src/main.rs).
The program's `f32` arithmetic is modelled by exact real numbers; `Vec2::length`
is `Real.sqrt` of the sum of squared components.  Rendering, colors and the
window system are outside the physics core and are not modelled; the boundary
rectangle, which the source recomputes from the live window size on every call,
is passed in as an explicit value.
-/

namespace ParticleSim

noncomputable section

/-- 2D vector over the reals, modelling macroquad's `Vec2` (`f32` pair). -/
structure Vec2 where
  x : ℝ
  y : ℝ

instance : Add Vec2 := ⟨fun a b => ⟨a.x + b.x, a.y + b.y⟩⟩

instance : Sub Vec2 := ⟨fun a b => ⟨a.x - b.x, a.y - b.y⟩⟩

instance : Neg Vec2 := ⟨fun a => ⟨-a.x, -a.y⟩⟩

/-- Scalar multiplication `v * c` (Rust `Vec2 * f32`). -/
def Vec2.smul (v : Vec2) (c : ℝ) : Vec2 := ⟨v.x * c, v.y * c⟩

/-- Scalar division `v / c` (Rust `Vec2 / f32`). -/
def Vec2.divScalar (v : Vec2) (c : ℝ) : Vec2 := ⟨v.x / c, v.y / c⟩

/-- Dot product (Rust `Vec2::dot`). -/
def Vec2.dot (a b : Vec2) : ℝ := a.x * b.x + a.y * b.y

/-- Euclidean norm (Rust `Vec2::length`). -/
def Vec2.length (v : Vec2) : ℝ := Real.sqrt (v.x ^ 2 + v.y ^ 2)

@[simp] theorem Vec2.add_x (a b : Vec2) : (a + b).x = a.x + b.x := rfl

@[simp] theorem Vec2.add_y (a b : Vec2) : (a + b).y = a.y + b.y := rfl

@[simp] theorem Vec2.sub_x (a b : Vec2) : (a - b).x = a.x - b.x := rfl

@[simp] theorem Vec2.sub_y (a b : Vec2) : (a - b).y = a.y - b.y := rfl

@[simp] theorem Vec2.neg_x (a : Vec2) : (-a).x = -a.x := rfl

@[simp] theorem Vec2.neg_y (a : Vec2) : (-a).y = -a.y := rfl

@[simp] theorem Vec2.smul_x (v : Vec2) (c : ℝ) : (v.smul c).x = v.x * c := rfl

@[simp] theorem Vec2.smul_y (v : Vec2) (c : ℝ) : (v.smul c).y = v.y * c := rfl

@[simp] theorem Vec2.divScalar_x (v : Vec2) (c : ℝ) : (v.divScalar c).x = v.x / c := rfl

@[simp] theorem Vec2.divScalar_y (v : Vec2) (c : ℝ) : (v.divScalar c).y = v.y / c := rfl

@[ext] theorem Vec2.ext_xy {a b : Vec2} (hx : a.x = b.x) (hy : a.y = b.y) : a = b := by
  cases a; cases b; simp_all

theorem Vec2.neg_eq (a : Vec2) : -a = ⟨-a.x, -a.y⟩ := rfl

-- === Constants (src/src/main.rs lines 4-7) ===

/-- `TIME_STEP: f32 = 1.0 / 60.0`. -/
def TIME_STEP : ℝ := 1 / 60

/-- `VELOCITY_THRESHOLD: f32 = 0.1`. -/
def VELOCITY_THRESHOLD : ℝ := 0.1

/-- `BOUNDARY_PADDING: f32 = 1.0`. -/
def BOUNDARY_PADDING : ℝ := 1

-- === Physics (src/src/main.rs lines 31-45) ===

/-- `struct Physics`. -/
structure Physics where
  gravity : ℝ
  restitution : ℝ
  friction : ℝ

/-- `Physics::default()`: gravity -9.8, restitution 0.7, friction 0.99. -/
def Physics.default : Physics :=
  { gravity := -9.8, restitution := 0.7, friction := 0.99 }

-- === Boundary (src/src/main.rs lines 48-64) ===

/-- `struct Boundary`. -/
structure Boundary where
  left : ℝ
  right : ℝ
  bottom : ℝ
  top : ℝ

/-- `Boundary::new()`, with the world dimensions (queried from the live window
in the source) passed as an argument. -/
def Boundary.ofWorld (world : Vec2) : Boundary :=
  { left := BOUNDARY_PADDING
    right := world.x - BOUNDARY_PADDING
    bottom := BOUNDARY_PADDING
    top := world.y - BOUNDARY_PADDING }

-- === Particle (src/src/main.rs lines 82-98) ===

/-- `struct Particle`; the `color` field is opaque to the physics and omitted. -/
structure Particle where
  position : Vec2
  velocity : Vec2
  radius : ℝ
  mass : ℝ

@[ext] theorem Particle.ext_fields {a b : Particle} (hp : a.position = b.position)
    (hv : a.velocity = b.velocity) (hr : a.radius = b.radius) (hm : a.mass = b.mass) :
    a = b := by
  cases a; cases b; simp_all

/-- `Particle::update`: semi-implicit Euler — gravity is added to `velocity.y`
first, then the already-updated velocity advances the position. -/
def Particle.update (p : Particle) (physics : Physics) (dt : ℝ) : Particle :=
  let v : Vec2 := ⟨p.velocity.x, p.velocity.y + physics.gravity * dt⟩
  { p with velocity := v, position := p.position + v.smul dt }

@[simp] theorem Particle.update_velocity_x (p : Particle) (ph : Physics) (dt : ℝ) :
    (p.update ph dt).velocity.x = p.velocity.x := rfl

@[simp] theorem Particle.update_velocity_y (p : Particle) (ph : Physics) (dt : ℝ) :
    (p.update ph dt).velocity.y = p.velocity.y + ph.gravity * dt := rfl

@[simp] theorem Particle.update_position_x (p : Particle) (ph : Physics) (dt : ℝ) :
    (p.update ph dt).position.x = p.position.x + p.velocity.x * dt := rfl

@[simp] theorem Particle.update_position_y (p : Particle) (ph : Physics) (dt : ℝ) :
    (p.update ph dt).position.y = p.position.y + (p.velocity.y + ph.gravity * dt) * dt := rfl

@[simp] theorem Particle.update_radius (p : Particle) (ph : Physics) (dt : ℝ) :
    (p.update ph dt).radius = p.radius := rfl

@[simp] theorem Particle.update_mass (p : Particle) (ph : Physics) (dt : ℝ) :
    (p.update ph dt).mass = p.mass := rfl

-- === Boundary collision (src/src/main.rs lines 100-137) ===

/-- `Particle::handle_boundary_collision`.  The source recomputes the boundary
from the live window (`Boundary::new()`); here it is the `bounds` argument.
The vertical block runs first, then the horizontal block reads the (possibly
already modified) state, exactly as the sequential mutations in the source. -/
def Particle.handle_boundary_collision (p : Particle) (physics : Physics)
    (bounds : Boundary) : Particle :=
  let min_x := bounds.left + p.radius
  let max_x := bounds.right - p.radius
  let min_y := bounds.bottom + p.radius
  let max_y := bounds.top - p.radius
  -- Vertical boundaries
  let q :=
    if p.position.y ≤ min_y then
      let vy :=
        if p.velocity.y < 0 then
          let r := -p.velocity.y * physics.restitution
          if |r| < VELOCITY_THRESHOLD then 0 else r
        else p.velocity.y
      { p with position := ⟨p.position.x, min_y⟩
               velocity := ⟨p.velocity.x * physics.friction, vy⟩ }
    else if p.position.y ≥ max_y then
      { p with position := ⟨p.position.x, max_y⟩
               velocity :=
                 if p.velocity.y > 0 then
                   ⟨p.velocity.x, -p.velocity.y * physics.restitution⟩
                 else p.velocity }
    else p
  -- Horizontal boundaries
  if q.position.x ≤ min_x then
    { q with position := ⟨min_x, q.position.y⟩
             velocity :=
               if q.velocity.x < 0 then
                 ⟨-q.velocity.x * physics.restitution, q.velocity.y⟩
               else q.velocity }
  else if q.position.x ≥ max_x then
    { q with position := ⟨max_x, q.position.y⟩
             velocity :=
               if q.velocity.x > 0 then
                 ⟨-q.velocity.x * physics.restitution, q.velocity.y⟩
               else q.velocity }
  else q

-- === Pairwise collision (src/src/main.rs lines 146-176) ===

/-- `resolve_particle_collision`.  The two `&mut` references become a returned
pair: first component is the updated `p1`, second the updated `p2`. -/
def resolve_particle_collision (p1 p2 : Particle) (physics : Physics) :
    Particle × Particle :=
  let delta := p2.position - p1.position
  let distance := delta.length
  let min_dist := p1.radius + p2.radius
  if distance ≥ min_dist ∨ distance = 0 then (p1, p2)
  else
    let normal := delta.divScalar distance
    let overlap := min_dist - distance
    let total_mass := p1.mass + p2.mass
    -- Separate particles
    let q1 := { p1 with position := p1.position - (normal.smul overlap).smul (p2.mass / total_mass) }
    let q2 := { p2 with position := p2.position + (normal.smul overlap).smul (p1.mass / total_mass) }
    -- Calculate impulse
    let rel_vel := q2.velocity - q1.velocity
    let vel_along_normal := rel_vel.dot normal
    if vel_along_normal > 0 then (q1, q2)
    else
      let impulse := -(1 + physics.restitution) * vel_along_normal /
        (1 / q1.mass + 1 / q2.mass)
      let impulse_vec := normal.smul impulse
      ({ q1 with velocity := q1.velocity - impulse_vec.divScalar q1.mass },
       { q2 with velocity := q2.velocity + impulse_vec.divScalar q2.mass })

-- === Fixed-step simulation loop (src/src/main.rs lines 188-211) ===

/-- One fixed sub-step of the body of `while accumulator >= TIME_STEP`:
update both particles, resolve the particle pair, then handle each particle's
boundary collision, in that order. -/
def subStep (physics : Physics) (bounds : Boundary) (st : Particle × Particle) :
    Particle × Particle :=
  let st := (st.1.update physics TIME_STEP, st.2.update physics TIME_STEP)
  let st := resolve_particle_collision st.1 st.2 physics
  (st.1.handle_boundary_collision physics bounds,
   st.2.handle_boundary_collision physics bounds)

/-- The draining loop `while accumulator >= TIME_STEP { ...; accumulator -= TIME_STEP }`. -/
def drainLoop (physics : Physics) (bounds : Boundary) (accumulator : ℝ)
    (st : Particle × Particle) : ℝ × (Particle × Particle) :=
  if h : accumulator ≥ TIME_STEP then
    drainLoop physics bounds (accumulator - TIME_STEP) (subStep physics bounds st)
  else (accumulator, st)
termination_by ⌊accumulator / TIME_STEP⌋₊
decreasing_by
  have hT : (0:ℝ) < TIME_STEP := by norm_num [TIME_STEP]
  have h1 : (1:ℝ) ≤ accumulator / TIME_STEP := (one_le_div hT).mpr h
  have hsub : (accumulator - TIME_STEP) / TIME_STEP = accumulator / TIME_STEP - 1 := by
    field_simp
  rw [hsub]
  have hfl : ⌊accumulator / TIME_STEP - 1⌋₊ = ⌊accumulator / TIME_STEP⌋₊ - 1 :=
    Nat.floor_sub_one (accumulator / TIME_STEP)
  rw [hfl]
  have hpos : 1 ≤ ⌊accumulator / TIME_STEP⌋₊ := by
    have := Nat.le_floor (α := ℝ) (n := 1) (by simpa using h1)
    simpa using this
  omega

/-- One rendered frame of the main loop: the elapsed frame time is added to the
accumulator, then the accumulator drains in fixed sub-steps. -/
def frame (physics : Physics) (bounds : Boundary) (elapsed accumulator : ℝ)
    (st : Particle × Particle) : ℝ × (Particle × Particle) :=
  drainLoop physics bounds (accumulator + elapsed) st

-- === General lemmas about the embedding ===

theorem Vec2.length_nonneg (v : Vec2) : 0 ≤ v.length := Real.sqrt_nonneg _

theorem Vec2.length_neg (v : Vec2) : (-v).length = v.length := by
  simp [Vec2.length]

theorem Vec2.length_smul (v : Vec2) (c : ℝ) : (v.smul c).length = |c| * v.length := by
  simp only [Vec2.length, Vec2.smul]
  rw [show (v.x * c) ^ 2 + (v.y * c) ^ 2 = c ^ 2 * (v.x ^ 2 + v.y ^ 2) by ring,
    Real.sqrt_mul (sq_nonneg c), Real.sqrt_sq_eq_abs]

theorem Vec2.length_eq_zero_iff (v : Vec2) : v.length = 0 ↔ v.x = 0 ∧ v.y = 0 := by
  rw [Vec2.length, Real.sqrt_eq_zero (by positivity)]
  constructor
  · intro h
    constructor
    · nlinarith [sq_nonneg v.x, sq_nonneg v.y]
    · nlinarith [sq_nonneg v.x, sq_nonneg v.y]
  · rintro ⟨hx, hy⟩
    rw [hx, hy]; ring

/-- Velocities after `n` integration steps: each step adds `gravity*dt` to the
`y`-component and leaves the `x`-component alone. -/
theorem update_iterate_velocity (p : Particle) (ph : Physics) (dt : ℝ) (n : ℕ) :
    ((fun q => q.update ph dt)^[n] p).velocity.y = p.velocity.y + n * (ph.gravity * dt) ∧
    ((fun q => q.update ph dt)^[n] p).velocity.x = p.velocity.x := by
  induction n with
  | zero => simp
  | succ n ih =>
    rw [Function.iterate_succ_apply']
    refine ⟨?_, ?_⟩
    · simp [ih.1]; ring
    · simp [ih.2]

/-- Unrolling of the accumulator drain: the loop runs exactly
`⌊accumulator / TIME_STEP⌋` sub-steps and subtracts that many `TIME_STEP`s. -/
theorem drainLoop_spec (ph : Physics) (b : Boundary) (acc : ℝ) (st : Particle × Particle) :
    drainLoop ph b acc st =
      (acc - (⌊acc / TIME_STEP⌋₊ : ℝ) * TIME_STEP,
       (subStep ph b)^[⌊acc / TIME_STEP⌋₊] st) := by
  have hT : (0 : ℝ) < TIME_STEP := by norm_num [TIME_STEP]
  suffices h : ∀ n : ℕ, ∀ acc : ℝ, ∀ st : Particle × Particle,
      ⌊acc / TIME_STEP⌋₊ = n →
      drainLoop ph b acc st =
        (acc - (⌊acc / TIME_STEP⌋₊ : ℝ) * TIME_STEP,
         (subStep ph b)^[⌊acc / TIME_STEP⌋₊] st) from h _ acc st rfl
  intro n
  induction n with
  | zero =>
    intro acc st hn
    have hlt : ¬ acc ≥ TIME_STEP := by
      intro hge
      have h1 : (1 : ℝ) ≤ acc / TIME_STEP := (one_le_div hT).mpr hge
      have h2 : 1 ≤ ⌊acc / TIME_STEP⌋₊ := Nat.le_floor (by simpa using h1)
      omega
    rw [drainLoop, dif_neg hlt, hn]
    simp
  | succ n ih =>
    intro acc st hn
    have hge : acc ≥ TIME_STEP := by
      by_contra hlt
      push_neg at hlt
      have h1 : acc / TIME_STEP < 1 := (div_lt_one hT).mpr hlt
      have h2 : ⌊acc / TIME_STEP⌋₊ = 0 := Nat.floor_eq_zero.mpr h1
      omega
    have hfloor : ⌊(acc - TIME_STEP) / TIME_STEP⌋₊ = n := by
      have hsub : (acc - TIME_STEP) / TIME_STEP = acc / TIME_STEP - 1 := by
        field_simp
      rw [hsub, Nat.floor_sub_one, hn]
      omega
    rw [drainLoop, dif_pos hge, ih _ _ hfloor, hfloor, hn]
    refine Prod.ext ?_ ?_
    · show acc - TIME_STEP - (n : ℝ) * TIME_STEP = acc - ((n + 1 : ℕ) : ℝ) * TIME_STEP
      push_cast
      ring
    · exact (Function.iterate_succ_apply (subStep ph b) n st).symm

/-- The drained accumulator always ends below one fixed step. -/
theorem drainLoop_fst_lt (ph : Physics) (b : Boundary) (acc : ℝ)
    (st : Particle × Particle) : (drainLoop ph b acc st).1 < TIME_STEP := by
  have hT : (0 : ℝ) < TIME_STEP := by norm_num [TIME_STEP]
  rw [drainLoop_spec]
  have h1 : acc / TIME_STEP < (⌊acc / TIME_STEP⌋₊ : ℝ) + 1 :=
    Nat.lt_floor_add_one (acc / TIME_STEP)
  have h2 : acc < ((⌊acc / TIME_STEP⌋₊ : ℝ) + 1) * TIME_STEP := by
    calc acc = acc / TIME_STEP * TIME_STEP := by field_simp
    _ < ((⌊acc / TIME_STEP⌋₊ : ℝ) + 1) * TIME_STEP := by
        exact mul_lt_mul_of_pos_right h1 hT
  show acc - (⌊acc / TIME_STEP⌋₊ : ℝ) * TIME_STEP < TIME_STEP
  nlinarith

end

namespace Claims

open ParticleSim

/-- Claim C2: `Particle::update` is semi-implicit Euler — gravity is added to
`velocity.y` first and the position advances with the already-updated
velocity; consequently a particle starting with zero velocity has
`velocity.y = n * gravity * dt` after `n` updates (no collisions involved). -/
theorem C2_update_semi_implicit_euler (p : Particle) (ph : Physics) (dt : ℝ) :
    (p.update ph dt).velocity = ⟨p.velocity.x, p.velocity.y + ph.gravity * dt⟩ ∧
    (p.update ph dt).position =
      ⟨p.position.x + p.velocity.x * dt,
       p.position.y + (p.velocity.y + ph.gravity * dt) * dt⟩ ∧
    (p.velocity = ⟨0, 0⟩ →
      ∀ n : ℕ, ((fun q : Particle => q.update ph dt)^[n] p).velocity.y =
        n * ph.gravity * dt) := by
  refine ⟨rfl, rfl, fun h0 n => ?_⟩
  rw [(update_iterate_velocity p ph dt n).1, h0]
  simp; ring

/-- Witness for C2 at the program's second initial particle
(position `(8,9)`, velocity `(0,0)`, radius `0.4`, mass `2`), three sub-steps. -/
theorem C2_witness :
    ((fun q : Particle => q.update Physics.default TIME_STEP)^[3]
        ⟨⟨8, 9⟩, ⟨0, 0⟩, 0.4, 2⟩).velocity.y =
      (3 : ℕ) * Physics.default.gravity * TIME_STEP :=
  (C2_update_semi_implicit_euler ⟨⟨8, 9⟩, ⟨0, 0⟩, 0.4, 2⟩ Physics.default TIME_STEP).2.2
    rfl 3

/-- Claim C7: `resolve_particle_collision` is a no-op whenever the circles do
not overlap (`distance >= min_dist`) or the centers coincide (`distance == 0`,
undefined normal): both particles come back entirely unchanged and no division
by zero occurs. -/
theorem C7_resolve_noop (p1 p2 : Particle) (ph : Physics)
    (h : (p2.position - p1.position).length ≥ p1.radius + p2.radius ∨
      (p2.position - p1.position).length = 0) :
    resolve_particle_collision p1 p2 ph = (p1, p2) := by
  rw [resolve_particle_collision, if_pos h]

/-- Witness for C7: two particles with identical centers `(8,0)` and nonzero
radii `0.8`, `0.4` are returned unchanged. -/
theorem C7_witness :
    resolve_particle_collision ⟨⟨8, 0⟩, ⟨1, 40⟩, 0.8, 10⟩ ⟨⟨8, 0⟩, ⟨0, 0⟩, 0.4, 2⟩
        Physics.default =
      (⟨⟨8, 0⟩, ⟨1, 40⟩, 0.8, 10⟩, ⟨⟨8, 0⟩, ⟨0, 0⟩, 0.4, 2⟩) :=
  C7_resolve_noop _ _ _ (Or.inr (by
    rw [Vec2.length_eq_zero_iff]
    constructor <;> simp))

/-- Claim C9: for an overlapping, non-coincident pair that is already
separating (`vel_along_normal > 0`) the impulse step is skipped: both
velocities are exactly unchanged (only positions are corrected). -/
theorem C9_resolve_separating_keeps_velocities (p1 p2 : Particle) (ph : Physics)
    (hlt : (p2.position - p1.position).length < p1.radius + p2.radius)
    (hsep : (p2.velocity - p1.velocity).dot
        ((p2.position - p1.position).divScalar (p2.position - p1.position).length) > 0) :
    (resolve_particle_collision p1 p2 ph).1.velocity = p1.velocity ∧
    (resolve_particle_collision p1 p2 ph).2.velocity = p2.velocity := by
  have hne : (p2.position - p1.position).length ≠ 0 := by
    intro h
    rw [h] at hsep
    simp [Vec2.divScalar, Vec2.dot] at hsep
  rw [resolve_particle_collision, if_neg (by
    rw [not_or]
    exact ⟨not_le.mpr hlt, hne⟩)]
  simp only
  rw [if_pos hsep]
  exact ⟨rfl, rfl⟩

/-- Claim C4: floor contact (`position.y <= bottom + radius`, with the
horizontal position strictly inside the walls so the horizontal block is
inert): the position is clamped to `min_y`; `velocity.x` is damped by
`friction` unconditionally; a downward `velocity.y` is reflected to
`-velocity.y * restitution` and zeroed when below the threshold; a
non-downward `velocity.y` is left unchanged. -/
theorem C4_floor_branch (p : Particle) (ph : Physics) (b : Boundary)
    (hy : p.position.y ≤ b.bottom + p.radius)
    (hx1 : b.left + p.radius < p.position.x)
    (hx2 : p.position.x < b.right - p.radius) :
    (p.handle_boundary_collision ph b).position.y = b.bottom + p.radius ∧
    (p.handle_boundary_collision ph b).position.x = p.position.x ∧
    (p.handle_boundary_collision ph b).velocity.x = p.velocity.x * ph.friction ∧
    (p.velocity.y < 0 →
      (|(-p.velocity.y * ph.restitution)| < VELOCITY_THRESHOLD →
        (p.handle_boundary_collision ph b).velocity.y = 0) ∧
      (VELOCITY_THRESHOLD ≤ |(-p.velocity.y * ph.restitution)| →
        (p.handle_boundary_collision ph b).velocity.y = -p.velocity.y * ph.restitution)) ∧
    (0 ≤ p.velocity.y → (p.handle_boundary_collision ph b).velocity.y = p.velocity.y) := by
  rw [Particle.handle_boundary_collision]
  simp only
  rw [if_pos hy, if_neg (not_le.mpr hx1), if_neg (not_le.mpr hx2)]
  refine ⟨rfl, rfl, rfl, fun hv => ⟨fun hth => ?_, fun hth => ?_⟩, fun hv => ?_⟩
  · show (if p.velocity.y < 0 then _ else _) = _
    rw [if_pos hv, if_pos hth]
  · show (if p.velocity.y < 0 then _ else _) = _
    rw [if_pos hv, if_neg (not_lt.mpr hth)]
  · show (if p.velocity.y < 0 then _ else _) = _
    rw [if_neg (not_lt.mpr hv)]

/-- Witness for C4: a slow downward contact gets its bounce zeroed
(restitution 0.7 turns speed 0.1 into 0.07 < 0.1). -/
theorem C4_witness :
    ((⟨⟨5, 1.2⟩, ⟨2, -0.1⟩, 0.5, 1⟩ : Particle).handle_boundary_collision
        Physics.default (Boundary.ofWorld ⟨20, 15⟩)).position.y = 1 + 0.5 ∧
    ((⟨⟨5, 1.2⟩, ⟨2, -0.1⟩, 0.5, 1⟩ : Particle).handle_boundary_collision
        Physics.default (Boundary.ofWorld ⟨20, 15⟩)).velocity.x = 2 * 0.99 ∧
    ((⟨⟨5, 1.2⟩, ⟨2, -0.1⟩, 0.5, 1⟩ : Particle).handle_boundary_collision
        Physics.default (Boundary.ofWorld ⟨20, 15⟩)).velocity.y = 0 := by
  have h := C4_floor_branch ⟨⟨5, 1.2⟩, ⟨2, -0.1⟩, 0.5, 1⟩ Physics.default
    (Boundary.ofWorld ⟨20, 15⟩)
    (by norm_num [Boundary.ofWorld, BOUNDARY_PADDING])
    (by norm_num [Boundary.ofWorld, BOUNDARY_PADDING])
    (by norm_num [Boundary.ofWorld, BOUNDARY_PADDING])
  refine ⟨?_, ?_, ?_⟩
  · rw [h.1]; norm_num [Boundary.ofWorld, BOUNDARY_PADDING]
  · exact h.2.2.1
  · exact (h.2.2.2.1 (by norm_num)).1
      (by norm_num [Physics.default, VELOCITY_THRESHOLD, abs_lt])

/-- Claim C5: threshold zeroing is floor-only.  A ceiling contact with upward
velocity, and wall contacts with velocity into the wall, reflect the
corresponding component by `-restitution` exactly — never zeroing it however
small it is — and apply no friction (ceiling leaves `velocity.x` alone, walls
leave `velocity.y` alone). -/
theorem C5_nonfloor_contacts_no_threshold (ph : Physics) (b : Boundary) :
    (∀ p : Particle,
      b.bottom + p.radius < p.position.y → b.top - p.radius ≤ p.position.y →
      b.left + p.radius < p.position.x → p.position.x < b.right - p.radius →
      0 < p.velocity.y →
      (p.handle_boundary_collision ph b).velocity.y = -p.velocity.y * ph.restitution ∧
      (p.handle_boundary_collision ph b).velocity.x = p.velocity.x ∧
      (ph.restitution ≠ 0 → (p.handle_boundary_collision ph b).velocity.y ≠ 0)) ∧
    (∀ p : Particle,
      b.bottom + p.radius < p.position.y → p.position.y < b.top - p.radius →
      p.position.x ≤ b.left + p.radius → p.velocity.x < 0 →
      (p.handle_boundary_collision ph b).velocity.x = -p.velocity.x * ph.restitution ∧
      (p.handle_boundary_collision ph b).velocity.y = p.velocity.y ∧
      (ph.restitution ≠ 0 → (p.handle_boundary_collision ph b).velocity.x ≠ 0)) ∧
    (∀ p : Particle,
      b.bottom + p.radius < p.position.y → p.position.y < b.top - p.radius →
      b.left + p.radius < p.position.x → b.right - p.radius ≤ p.position.x →
      0 < p.velocity.x →
      (p.handle_boundary_collision ph b).velocity.x = -p.velocity.x * ph.restitution ∧
      (p.handle_boundary_collision ph b).velocity.y = p.velocity.y ∧
      (ph.restitution ≠ 0 → (p.handle_boundary_collision ph b).velocity.x ≠ 0)) := by
  refine ⟨fun p h1 h2 hx1 hx2 hv => ?_, fun p h1 h2 hx hv => ?_,
    fun p h1 h2 hxl hx hv => ?_⟩
  · rw [Particle.handle_boundary_collision]
    simp only
    rw [if_neg (not_le.mpr h1), if_pos h2, if_pos hv,
      if_neg (not_le.mpr hx1), if_neg (not_le.mpr hx2)]
    exact ⟨rfl, rfl, fun hr =>
      mul_ne_zero (neg_ne_zero.mpr (ne_of_gt hv)) hr⟩
  · rw [Particle.handle_boundary_collision]
    simp only
    rw [if_neg (not_le.mpr h1), if_neg (not_le.mpr h2), if_pos hx, if_pos hv]
    exact ⟨rfl, rfl, fun hr =>
      mul_ne_zero (neg_ne_zero.mpr (ne_of_lt hv)) hr⟩
  · rw [Particle.handle_boundary_collision]
    simp only
    rw [if_neg (not_le.mpr h1), if_neg (not_le.mpr h2), if_neg (not_le.mpr hxl),
      if_pos hx, if_pos hv]
    exact ⟨rfl, rfl, fun hr =>
      mul_ne_zero (neg_ne_zero.mpr (ne_of_gt hv)) hr⟩

/-- Witness for C5: a ceiling contact at upward speed `0.05`, a left-wall
contact at leftward speed `0.05`, and a right-wall contact at rightward speed
`0.05` all reflect to speed `0.035` (below the floor threshold `0.1`) without
being zeroed. -/
theorem C5_witness :
    ((⟨⟨5, 13.8⟩, ⟨1, 0.05⟩, 0.5, 1⟩ : Particle).handle_boundary_collision
        Physics.default (Boundary.ofWorld ⟨20, 15⟩)).velocity.y = -(0.05 * 0.7) ∧
    ((⟨⟨1.2, 5⟩, ⟨-0.05, 3⟩, 0.5, 1⟩ : Particle).handle_boundary_collision
        Physics.default (Boundary.ofWorld ⟨20, 15⟩)).velocity.x = 0.05 * 0.7 ∧
    ((⟨⟨18.9, 5⟩, ⟨0.05, 3⟩, 0.5, 1⟩ : Particle).handle_boundary_collision
        Physics.default (Boundary.ofWorld ⟨20, 15⟩)).velocity.x = -(0.05 * 0.7) := by
  have h := C5_nonfloor_contacts_no_threshold Physics.default (Boundary.ofWorld ⟨20, 15⟩)
  refine ⟨?_, ?_, ?_⟩
  · rw [(h.1 ⟨⟨5, 13.8⟩, ⟨1, 0.05⟩, 0.5, 1⟩
      (by norm_num [Boundary.ofWorld, BOUNDARY_PADDING])
      (by norm_num [Boundary.ofWorld, BOUNDARY_PADDING])
      (by norm_num [Boundary.ofWorld, BOUNDARY_PADDING])
      (by norm_num [Boundary.ofWorld, BOUNDARY_PADDING])
      (by norm_num)).1]
    norm_num [Physics.default]
  · rw [(h.2.1 ⟨⟨1.2, 5⟩, ⟨-0.05, 3⟩, 0.5, 1⟩
      (by norm_num [Boundary.ofWorld, BOUNDARY_PADDING])
      (by norm_num [Boundary.ofWorld, BOUNDARY_PADDING])
      (by norm_num [Boundary.ofWorld, BOUNDARY_PADDING])
      (by norm_num)).1]
    norm_num [Physics.default]
  · rw [(h.2.2 ⟨⟨18.9, 5⟩, ⟨0.05, 3⟩, 0.5, 1⟩
      (by norm_num [Boundary.ofWorld, BOUNDARY_PADDING])
      (by norm_num [Boundary.ofWorld, BOUNDARY_PADDING])
      (by norm_num [Boundary.ofWorld, BOUNDARY_PADDING])
      (by norm_num [Boundary.ofWorld, BOUNDARY_PADDING])
      (by norm_num)).1]
    norm_num [Physics.default]

/-- Witness for C9: two overlapping unit disks at `(0,0)` and `(1,0)` moving
apart keep their velocities `(-1,0)` and `(1,0)` exactly. -/
theorem C9_witness :
    (resolve_particle_collision ⟨⟨0, 0⟩, ⟨-1, 0⟩, 1, 1⟩ ⟨⟨1, 0⟩, ⟨1, 0⟩, 1, 1⟩
        Physics.default).1.velocity = (⟨-1, 0⟩ : Vec2) ∧
    (resolve_particle_collision ⟨⟨0, 0⟩, ⟨-1, 0⟩, 1, 1⟩ ⟨⟨1, 0⟩, ⟨1, 0⟩, 1, 1⟩
        Physics.default).2.velocity = (⟨1, 0⟩ : Vec2) := by
  have hlen : ((⟨⟨1, 0⟩, ⟨1, 0⟩, 1, 1⟩ : Particle).position -
      (⟨⟨0, 0⟩, ⟨-1, 0⟩, 1, 1⟩ : Particle).position).length = 1 := by
    simp [Vec2.length]
  exact C9_resolve_separating_keeps_velocities _ _ _
    (by rw [hlen]; norm_num)
    (by rw [hlen]; simp [Vec2.dot, Vec2.divScalar])

/-- Claim C1: whenever the impulse step runs (overlap, distinct centers,
`vel_along_normal <= 0`) with positive masses, total momentum
`m1*v1 + m2*v2` is unchanged componentwise: the two velocity changes are
equal and opposite impulses along the normal scaled by the inverse masses. -/
theorem C1_impulse_conserves_momentum (p1 p2 : Particle) (ph : Physics)
    (hm1 : 0 < p1.mass) (hm2 : 0 < p2.mass)
    (hlt : (p2.position - p1.position).length < p1.radius + p2.radius)
    (hne : (p2.position - p1.position).length ≠ 0)
    (hva : (p2.velocity - p1.velocity).dot
        ((p2.position - p1.position).divScalar (p2.position - p1.position).length) ≤ 0) :
    p1.mass * (resolve_particle_collision p1 p2 ph).1.velocity.x +
        p2.mass * (resolve_particle_collision p1 p2 ph).2.velocity.x =
      p1.mass * p1.velocity.x + p2.mass * p2.velocity.x ∧
    p1.mass * (resolve_particle_collision p1 p2 ph).1.velocity.y +
        p2.mass * (resolve_particle_collision p1 p2 ph).2.velocity.y =
      p1.mass * p1.velocity.y + p2.mass * p2.velocity.y := by
  rw [resolve_particle_collision, if_neg (by
    rw [not_or]
    exact ⟨not_le.mpr hlt, hne⟩)]
  simp only
  rw [if_neg (not_lt.mpr hva)]
  have h1 : p1.mass ≠ 0 := ne_of_gt hm1
  have h2 : p2.mass ≠ 0 := ne_of_gt hm2
  constructor
  · show p1.mass * (p1.velocity.x - _ / p1.mass) + p2.mass * (p2.velocity.x + _ / p2.mass) = _
    field_simp
    ring
  · show p1.mass * (p1.velocity.y - _ / p1.mass) + p2.mass * (p2.velocity.y + _ / p2.mass) = _
    field_simp
    ring

/-- Witness for C1: overlapping unit disks at `(0,0)` and `(1,0)` closing at
relative speed 2, masses 1 and 2. -/
theorem C1_witness :
    (1 : ℝ) * (resolve_particle_collision ⟨⟨0, 0⟩, ⟨1, 0⟩, 1, 1⟩
        ⟨⟨1, 0⟩, ⟨-1, 0⟩, 1, 2⟩ Physics.default).1.velocity.x +
      (2 : ℝ) * (resolve_particle_collision ⟨⟨0, 0⟩, ⟨1, 0⟩, 1, 1⟩
        ⟨⟨1, 0⟩, ⟨-1, 0⟩, 1, 2⟩ Physics.default).2.velocity.x =
      (1 : ℝ) * 1 + (2 : ℝ) * (-1) := by
  have hlen : ((⟨⟨1, 0⟩, ⟨-1, 0⟩, 1, 2⟩ : Particle).position -
      (⟨⟨0, 0⟩, ⟨1, 0⟩, 1, 1⟩ : Particle).position).length = 1 := by
    simp [Vec2.length]
  have h := C1_impulse_conserves_momentum ⟨⟨0, 0⟩, ⟨1, 0⟩, 1, 1⟩
    ⟨⟨1, 0⟩, ⟨-1, 0⟩, 1, 2⟩ Physics.default (by norm_num) (by norm_num)
    (by rw [hlen]; norm_num)
    (by rw [hlen]; norm_num)
    (by rw [hlen]; simp [Vec2.dot, Vec2.divScalar])
  simpa using h.1

/-- Claim C8: for an overlapping, non-coincident pair with positive masses the
positional correction moves `p1` by `-normal*overlap*(m2/(m1+m2))` and `p2` by
`+normal*overlap*(m1/(m1+m2))` (each particle moves by the other's mass
fraction), and afterwards the distance between the centers equals
`radius1 + radius2` — in particular it is at least `radius1 + radius2 - eps`
for every nonnegative `eps`. -/
theorem C8_positional_correction (p1 p2 : Particle) (ph : Physics)
    (hm1 : 0 < p1.mass) (hm2 : 0 < p2.mass)
    (hlt : (p2.position - p1.position).length < p1.radius + p2.radius)
    (hne : (p2.position - p1.position).length ≠ 0) :
    (resolve_particle_collision p1 p2 ph).1.position =
      p1.position -
        (((p2.position - p1.position).divScalar (p2.position - p1.position).length).smul
            (p1.radius + p2.radius - (p2.position - p1.position).length)).smul
          (p2.mass / (p1.mass + p2.mass)) ∧
    (resolve_particle_collision p1 p2 ph).2.position =
      p2.position +
        (((p2.position - p1.position).divScalar (p2.position - p1.position).length).smul
            (p1.radius + p2.radius - (p2.position - p1.position).length)).smul
          (p1.mass / (p1.mass + p2.mass)) ∧
    ((resolve_particle_collision p1 p2 ph).2.position -
        (resolve_particle_collision p1 p2 ph).1.position).length =
      p1.radius + p2.radius ∧
    ∀ eps : ℝ, 0 ≤ eps →
      p1.radius + p2.radius - eps ≤
        ((resolve_particle_collision p1 p2 ph).2.position -
          (resolve_particle_collision p1 p2 ph).1.position).length := by
  have hM : p1.mass + p2.mass ≠ 0 := ne_of_gt (by linarith)
  have hL0 : 0 < (p2.position - p1.position).length :=
    lt_of_le_of_ne (Vec2.length_nonneg _) (Ne.symm hne)
  have hpos :
      (resolve_particle_collision p1 p2 ph).1.position =
        p1.position -
          (((p2.position - p1.position).divScalar (p2.position - p1.position).length).smul
              (p1.radius + p2.radius - (p2.position - p1.position).length)).smul
            (p2.mass / (p1.mass + p2.mass)) ∧
      (resolve_particle_collision p1 p2 ph).2.position =
        p2.position +
          (((p2.position - p1.position).divScalar (p2.position - p1.position).length).smul
              (p1.radius + p2.radius - (p2.position - p1.position).length)).smul
            (p1.mass / (p1.mass + p2.mass)) := by
    rw [resolve_particle_collision, if_neg (by
      rw [not_or]
      exact ⟨not_le.mpr hlt, hne⟩)]
    simp only
    split_ifs with h
    · exact ⟨rfl, rfl⟩
    · exact ⟨rfl, rfl⟩
  have hdelta :
      (resolve_particle_collision p1 p2 ph).2.position -
          (resolve_particle_collision p1 p2 ph).1.position =
        (p2.position - p1.position).smul
          ((p1.radius + p2.radius) / (p2.position - p1.position).length) := by
    rw [hpos.1, hpos.2]
    apply Vec2.ext_xy <;>
      · simp [Vec2.smul, Vec2.divScalar]
        field_simp
        ring
  have hlen :
      ((resolve_particle_collision p1 p2 ph).2.position -
          (resolve_particle_collision p1 p2 ph).1.position).length =
        p1.radius + p2.radius := by
    rw [hdelta, Vec2.length_smul,
      abs_of_pos (div_pos (lt_trans hL0 hlt) hL0)]
    field_simp
  exact ⟨hpos.1, hpos.2, hlen, fun eps heps => by rw [hlen]; linarith⟩

/-- Witness for C8: after resolving the overlapping unit disks at `(0,0)` and
`(1,0)` (masses 1 and 2), the centers are exactly `2 = 1 + 1` apart. -/
theorem C8_witness :
    ((resolve_particle_collision ⟨⟨0, 0⟩, ⟨1, 0⟩, 1, 1⟩
          ⟨⟨1, 0⟩, ⟨-1, 0⟩, 1, 2⟩ Physics.default).2.position -
        (resolve_particle_collision ⟨⟨0, 0⟩, ⟨1, 0⟩, 1, 1⟩
          ⟨⟨1, 0⟩, ⟨-1, 0⟩, 1, 2⟩ Physics.default).1.position).length = 1 + 1 := by
  have hlen : ((⟨⟨1, 0⟩, ⟨-1, 0⟩, 1, 2⟩ : Particle).position -
      (⟨⟨0, 0⟩, ⟨1, 0⟩, 1, 1⟩ : Particle).position).length = 1 := by
    simp [Vec2.length]
  exact (C8_positional_correction ⟨⟨0, 0⟩, ⟨1, 0⟩, 1, 1⟩
    ⟨⟨1, 0⟩, ⟨-1, 0⟩, 1, 2⟩ Physics.default (by norm_num) (by norm_num)
    (by rw [hlen]; norm_num) (by rw [hlen]; norm_num)).2.2.1

/-- Claim C10: `resolve_particle_collision` is symmetric in its two particle
arguments — swapping the arguments swaps the results, for every pair of
particles and every physics configuration. -/
theorem C10_resolve_symmetric (p1 p2 : Particle) (ph : Physics) :
    resolve_particle_collision p2 p1 ph =
      ((resolve_particle_collision p1 p2 ph).2,
       (resolve_particle_collision p1 p2 ph).1) := by
  have hL : (p1.position - p2.position).length = (p2.position - p1.position).length := by
    rw [show p1.position - p2.position = -(p2.position - p1.position) from
      Vec2.ext_xy (by simp) (by simp), Vec2.length_neg]
  simp only [resolve_particle_collision]
  rw [hL, add_comm p2.radius p1.radius]
  by_cases hc : (p2.position - p1.position).length ≥ p1.radius + p2.radius ∨
      (p2.position - p1.position).length = 0
  · simp only [if_pos hc]
  · simp only [if_neg hc]
    have hvan : (p1.velocity - p2.velocity).dot
        ((p1.position - p2.position).divScalar (p2.position - p1.position).length) =
        (p2.velocity - p1.velocity).dot
        ((p2.position - p1.position).divScalar (p2.position - p1.position).length) := by
      simp only [Vec2.dot, Vec2.divScalar_x, Vec2.divScalar_y, Vec2.sub_x, Vec2.sub_y]
      ring
    rw [hvan, add_comm p2.mass p1.mass, add_comm (1 / p2.mass) (1 / p1.mass)]
    by_cases hv : (p2.velocity - p1.velocity).dot
        ((p2.position - p1.position).divScalar (p2.position - p1.position).length) > 0
    · simp only [if_pos hv]
      refine Prod.ext ?_ ?_ <;>
        · ext <;> simp [Vec2.smul, Vec2.divScalar] <;> ring
    · simp only [if_neg hv]
      refine Prod.ext ?_ ?_ <;>
        · ext <;> simp [Vec2.smul, Vec2.divScalar, Vec2.dot] <;> ring

/-- Claim C3: each rendered frame adds the elapsed time to the accumulator and
then runs one sub-step per full `TIME_STEP` contained in it, leaving the
accumulator below `TIME_STEP`; each sub-step is exactly: integrate both
particles, then resolve the particle pair, then resolve each particle's
boundary collision, in that order. -/
theorem C3_fixed_step_frame (ph : Physics) (b : Boundary) (elapsed acc : ℝ)
    (st : Particle × Particle) :
    frame ph b elapsed acc st =
      (acc + elapsed - (⌊(acc + elapsed) / TIME_STEP⌋₊ : ℝ) * TIME_STEP,
       (subStep ph b)^[⌊(acc + elapsed) / TIME_STEP⌋₊] st) ∧
    (frame ph b elapsed acc st).1 < TIME_STEP ∧
    ∀ s : Particle × Particle,
      subStep ph b s =
        ((resolve_particle_collision (s.1.update ph TIME_STEP)
            (s.2.update ph TIME_STEP) ph).1.handle_boundary_collision ph b,
         (resolve_particle_collision (s.1.update ph TIME_STEP)
            (s.2.update ph TIME_STEP) ph).2.handle_boundary_collision ph b) := by
  refine ⟨drainLoop_spec ph b (acc + elapsed) st,
    drainLoop_fst_lt ph b (acc + elapsed) st, fun s => rfl⟩

/-- Counterexample to C6: under the default configuration
(gravity `-9.8`, restitution `0.7`, dt `1/60`, threshold `0.1`) a particle at
rest on the floor (`position.y = min_y = 1.5`, `velocity.y = 0`) does NOT stay
at `velocity.y = 0` after one further sub-step: the reflected bounce speed is
`9.8/60 * 0.7 = 343/3000 ≈ 0.1143`, which is not below the threshold `0.1`. -/
theorem C6_counterexample :
    (((⟨⟨5, 1.5⟩, ⟨0, 0⟩, 0.5, 1⟩ : Particle).update Physics.default
          TIME_STEP).handle_boundary_collision Physics.default
        (Boundary.ofWorld ⟨20, 15⟩)).velocity.y = 343 / 3000 ∧
    (343 / 3000 : ℝ) ≠ 0 := by
  have h1 : (⟨⟨5, 1.5⟩, ⟨0, 0⟩, 0.5, 1⟩ : Particle).update Physics.default TIME_STEP =
      ⟨⟨5, 3 / 2 - 49 / 18000⟩, ⟨0, -49 / 300⟩, 0.5, 1⟩ := by
    ext <;> simp [Particle.update, Vec2.smul, Physics.default, TIME_STEP] <;> norm_num
  rw [h1]
  constructor
  · norm_num [Particle.handle_boundary_collision, Boundary.ofWorld, BOUNDARY_PADDING,
      Physics.default, VELOCITY_THRESHOLD, abs_lt]
  · norm_num

/-- Claim C6 amended: once the floor branch triggers the velocity threshold the
particle is at rest (`velocity.y = 0`, `position.y = min_y`); a further
sub-step (integration then boundary collision) from that rest state always
restores `position.y = min_y`, and restores `velocity.y = 0` exactly when the
reflected bounce speed `|gravity * dt * restitution|` is below the velocity
threshold — a condition the program's default constants violate. -/
theorem C6_floor_rest_amended :
    (∀ (p : Particle) (ph : Physics) (b : Boundary),
      p.position.y ≤ b.bottom + p.radius → p.velocity.y < 0 →
      |(-p.velocity.y * ph.restitution)| < VELOCITY_THRESHOLD →
      (p.handle_boundary_collision ph b).velocity.y = 0 ∧
      (p.handle_boundary_collision ph b).position.y = b.bottom + p.radius) ∧
    (∀ (p : Particle) (ph : Physics) (b : Boundary),
      p.position.y = b.bottom + p.radius → p.velocity.y = 0 → ph.gravity < 0 →
      ((p.update ph TIME_STEP).handle_boundary_collision ph b).position.y =
        b.bottom + p.radius ∧
      (|ph.gravity * TIME_STEP * ph.restitution| < VELOCITY_THRESHOLD →
        ((p.update ph TIME_STEP).handle_boundary_collision ph b).velocity.y = 0)) := by
  constructor
  · intro p ph b hy hv hth
    constructor <;>
      · rw [Particle.handle_boundary_collision]
        simp only
        rw [if_pos hy, if_pos hv, if_pos hth]
        split_ifs <;> rfl
  · intro p ph b hy hvy hg
    have hT : (0 : ℝ) < TIME_STEP := by norm_num [TIME_STEP]
    have hy' : (p.update ph TIME_STEP).position.y ≤
        b.bottom + (p.update ph TIME_STEP).radius := by
      simp only [Particle.update_position_y, Particle.update_radius, hy, hvy, zero_add]
      have hneg : ph.gravity * TIME_STEP * TIME_STEP < 0 := by
        calc ph.gravity * TIME_STEP * TIME_STEP
            = ph.gravity * (TIME_STEP * TIME_STEP) := by ring
          _ < 0 := mul_neg_of_neg_of_pos hg (mul_pos hT hT)
      linarith
    have hv' : (p.update ph TIME_STEP).velocity.y < 0 := by
      simp only [Particle.update_velocity_y, hvy, zero_add]
      exact mul_neg_of_neg_of_pos hg hT
    refine ⟨?_, fun hth => ?_⟩
    · rw [Particle.handle_boundary_collision]
      simp only
      rw [if_pos hy', if_pos hv']
      split_ifs <;> rfl
    · have hcond : |(-(p.update ph TIME_STEP).velocity.y * ph.restitution)| <
          VELOCITY_THRESHOLD := by
        simp only [Particle.update_velocity_y, hvy, zero_add]
        rw [neg_mul, abs_neg]
        exact hth
      rw [Particle.handle_boundary_collision]
      simp only
      rw [if_pos hy', if_pos hv', if_pos hcond]
      split_ifs <;> rfl

/-- Witness for the amended C6: a slow floor bounce comes to rest at
`min_y = 1.5`, and with restitution `0.5` (so that `9.8/60*0.5 < 0.1`) a
further sub-step from rest keeps `position.y = 1.5` and `velocity.y = 0`. -/
theorem C6_witness :
    ((⟨⟨5, 1.4⟩, ⟨2, -0.1⟩, 0.5, 1⟩ : Particle).handle_boundary_collision
        Physics.default (Boundary.ofWorld ⟨20, 15⟩)).velocity.y = 0 ∧
    (((⟨⟨5, 1.5⟩, ⟨0, 0⟩, 0.5, 1⟩ : Particle).update ⟨-9.8, 0.5, 0.99⟩
          TIME_STEP).handle_boundary_collision ⟨-9.8, 0.5, 0.99⟩
        (Boundary.ofWorld ⟨20, 15⟩)).position.y = 1 + 0.5 ∧
    (((⟨⟨5, 1.5⟩, ⟨0, 0⟩, 0.5, 1⟩ : Particle).update ⟨-9.8, 0.5, 0.99⟩
          TIME_STEP).handle_boundary_collision ⟨-9.8, 0.5, 0.99⟩
        (Boundary.ofWorld ⟨20, 15⟩)).velocity.y = 0 := by
  have h := C6_floor_rest_amended
  have ha := h.1 ⟨⟨5, 1.4⟩, ⟨2, -0.1⟩, 0.5, 1⟩ Physics.default
    (Boundary.ofWorld ⟨20, 15⟩)
    (by norm_num [Boundary.ofWorld, BOUNDARY_PADDING])
    (by norm_num)
    (by norm_num [Physics.default, VELOCITY_THRESHOLD, abs_lt])
  have hb := h.2 ⟨⟨5, 1.5⟩, ⟨0, 0⟩, 0.5, 1⟩ ⟨-9.8, 0.5, 0.99⟩
    (Boundary.ofWorld ⟨20, 15⟩)
    (by norm_num [Boundary.ofWorld, BOUNDARY_PADDING])
    (by norm_num)
    (by norm_num)
  refine ⟨ha.1, ?_, hb.2 (by norm_num [TIME_STEP, VELOCITY_THRESHOLD, abs_lt])⟩
  rw [hb.1]
  norm_num [Boundary.ofWorld, BOUNDARY_PADDING]

end Claims

end ParticleSim
